import Mathlib

/-!
# Verification of the KOB scheduler and Elo rating engine

Shallow embedding of the king-of-the-beach (KOB) tool:

* the round scheduler `generateRoundsCore` (from `src/index.ts`, the revision
  the claims cite: a single pair of frequency tables, a teammate-frequency cap
  filter, and positional team formation);
* the Elo rating engine `calculateEloRatings` (from `src/elo.ts`).

JavaScript's `Array.prototype.sort` with a comparator is a stable sort; every
in-place `sort` call of the source is modelled by `sortByKey`, a stable
insertion sort by a comparator key (all comparators in the source are of the
shape `keyOf(a) - keyOf(b)`).  JavaScript numbers used transcendentally
(`Math.exp`, `Math.pow(10, _)`, `Math.round`) are abstracted by a `FloatOps`
record; all other numeric code is embedded over `ℚ` / `Int` / `Nat` exactly
as written.
-/

/-- Stable sort of `l`, ascending by `key`.  Models JavaScript
`arr.sort((a, b) => key(a) - key(b))` (a stable sort: elements with equal
keys keep their relative order). -/
def sortByKey {α : Type} {β : Type} [LinearOrder β] (key : α → β) (l : List α) : List α :=
  l.insertionSort (fun a b => key a ≤ key b)

/-- First element of `l` attaining the minimal `key`, if any.  This is the
element a stable ascending sort by `key` puts first. -/
def firstMinBy {α : Type} {β : Type} [LinearOrder β] (key : α → β) : List α → Option α
  | [] => none
  | x :: xs =>
    match firstMinBy key xs with
    | none => some x
    | some m => if key x ≤ key m then some x else some m

/-! ## Data model (from `src/index.ts` type declarations / `global.d.ts`) -/

/-- A team of (two) players, identified by name. -/
structure Team where
  players : List String
deriving DecidableEq, Repr

/-- A team together with its running point total in a set. -/
structure TeamSet where
  team : Team
  points : Int
deriving DecidableEq, Repr

/-- One 2-v-2 court assignment ("set"). -/
structure KOBSet where
  id : String
  court : Nat
  teams : List TeamSet
deriving DecidableEq, Repr

/-- A scheduling round: one set per filled court. -/
structure Round where
  id : String
  sets : List KOBSet
deriving DecidableEq, Repr

/-- A league participant. -/
structure Player where
  name : String
deriving DecidableEq, Repr

/-- One real-world meeting of the league. -/
structure Session where
  id : String
  players : List String
  rounds : List Round
deriving DecidableEq, Repr

/-- The database contents. -/
structure Data where
  players : List Player
  sessions : List Session
deriving DecidableEq, Repr

/-! ## Round scheduler (`generateRoundsCore`, `src/index.ts`)

The two frequency tables `teammateFrequency` / `opponentFrequency` are plain
nested records initialized to `0` for every pair of roster players; lookups
use `|| 0`, so the tables are modelled as total functions that start at the
constant-zero function. -/

/-- The scheduler's pairing-frequency state. -/
structure FreqState where
  teammate : String → String → Nat
  opponent : String → String → Nat

/-- All-zero frequency tables (the state at the start of a generation call). -/
def initFreq : FreqState :=
  { teammate := fun _ _ => 0, opponent := fun _ _ => 0 }

/-- `f[x][y]++`. -/
def bump (f : String → String → Nat) (x y : String) : String → String → Nat :=
  fun a b => if a = x ∧ b = y then f a b + 1 else f a b

/-- Fold `bump` over a list of ordered pairs. -/
def bumpPairs (f : String → String → Nat) (ps : List (String × String)) : String → String → Nat :=
  ps.foldl (fun g pr => bump g pr.1 pr.2) f

/-- The ordered pairs `(p, q)` with `p, q ∈ t`, `p ≠ q`, in iteration order of
the source's nested `forEach` over a team. -/
def offDiagPairs (t : List String) : List (String × String) :=
  t.flatMap (fun p => (t.filter (fun q => q ≠ p)).map (fun q => (p, q)))

/-- The ordered pairs `(p, q)` with `p ∈ t₁`, `q ∈ t₂`. -/
def crossPairs (t₁ t₂ : List String) : List (String × String) :=
  t₁.flatMap (fun p => t₂.map (fun q => (p, q)))

/-- Frequency updates after committing teams `t₁`, `t₂` on a court: teammate
counters within each team (both directions), opponent counters across the
teams (both directions), exactly as in the source's two `forEach` blocks. -/
def updateFrequencies (st : FreqState) (t₁ t₂ : List String) : FreqState :=
  { teammate := bumpPairs st.teammate (offDiagPairs t₁ ++ offDiagPairs t₂)
    opponent := bumpPairs st.opponent (crossPairs t₁ t₂ ++ crossPairs t₂ t₁) }

/-- `availablePlayers.reduce((sum, p) => sum + (f[a][p] || 0), 0)`. -/
def sumFreq (f : String → String → Nat) (a : String) (l : List String) : Nat :=
  (l.map (f a)).sum

/-- Sort key of the first-player selection: total teammate frequency of `a`
against the available players. -/
def firstPickKey (st : FreqState) (avail : List String) (a : String) : Nat :=
  sumFreq st.teammate a avail

/-- Sort key of the slot-2..4 selection: total teammate plus opponent
frequency of `a` against the already-chosen court players. -/
def slotKey (st : FreqState) (court : List String) (a : String) : Nat :=
  sumFreq st.teammate a court + sumFreq st.opponent a court

/-- First-player selection: sort the available players by `firstPickKey` and
`shift()` the head.  Returns the selected player and the remaining list (the
sorted tail — the source sorts in place). -/
def pickFirst (st : FreqState) (avail : List String) : String × List String :=
  let sorted := sortByKey (firstPickKey st avail) avail
  (sorted.headD "", sorted.tail)

/-- The eligibility test of the source's `find`: global teammate frequency
with every already-chosen court player is below the cap. -/
def capOk (cap : Nat) (st : FreqState) (court : List String) (p : String) : Bool :=
  court.all (fun e => st.teammate p e < cap)

/-- Slot-2..4 selection: sort by `slotKey`, take the first candidate passing
`capOk`, falling back to the sorted head (`availablePlayers[0]`); remove the
selected player. -/
def pickNext (cap : Nat) (st : FreqState) (court : List String) (avail : List String) :
    String × List String :=
  let sorted := sortByKey (slotKey st court) avail
  let sel := (sorted.find? (capOk cap st court)).getD (sorted.headD "")
  (sel, sorted.filter (fun p => p ≠ sel))

/-- Select the four court players in order (slot 1, then three iterations of
the slot loop).  Returns the selections and the remaining available list. -/
def selectCourtPlayers (cap : Nat) (st : FreqState) (avail : List String) :
    (String × String × String × String) × List String :=
  let r₁ := pickFirst st avail
  let r₂ := pickNext cap st [r₁.1] r₁.2
  let r₃ := pickNext cap st [r₁.1, r₂.1] r₂.2
  let r₄ := pickNext cap st [r₁.1, r₂.1, r₃.1] r₃.2
  ((r₁.1, r₂.1, r₃.1, r₄.1), r₄.2)

/-- `maxPairingFrequency = Math.ceil((maxRounds * numCourts) / (players.length / 2))`
(for a nonempty roster this is `⌈2·R·C / n⌉`; the value is never consulted
when the roster is empty, since no court can then seat four players). -/
def maxPairingFrequency (maxRounds numCourts n : Nat) : Nat :=
  if n = 0 then 0 else (2 * maxRounds * numCourts + n - 1) / n

/-- The set emitted for court index `c` of round index `r` with the four
selected players. -/
def mkSet (r c : Nat) (p₁ p₂ p₃ p₄ : String) : KOBSet :=
  { id := toString (r + 1) ++ "-" ++ toString (c + 1)
    court := c + 1
    teams := [ { team := { players := [p₁, p₂] }, points := 0 }
             , { team := { players := [p₃, p₄] }, points := 0 } ] }

/-- The court loop of one round: for each court index, skip the court when
fewer than four players remain available, otherwise select four players,
commit the frequency updates and emit a set. -/
def runCourts (cap roundIdx : Nat) (st : FreqState) (avail : List String) :
    List Nat → List KOBSet × FreqState × List String
  | [] => ([], st, avail)
  | c :: cs =>
    if avail.length < 4 then
      runCourts cap roundIdx st avail cs
    else
      let sel := selectCourtPlayers cap st avail
      let p₁ := sel.1.1
      let p₂ := sel.1.2.1
      let p₃ := sel.1.2.2.1
      let p₄ := sel.1.2.2.2
      let st' := updateFrequencies st [p₁, p₂] [p₃, p₄]
      let rest := runCourts cap roundIdx st' sel.2 cs
      (mkSet roundIdx c p₁ p₂ p₃ p₄ :: rest.1, rest.2.1, rest.2.2)

/-- The round loop: each round starts from the full roster as available
players; the frequency state persists across rounds. -/
def runRounds (cap numCourts : Nat) (players : List String) (st : FreqState) :
    List Nat → List Round × FreqState
  | [] => ([], st)
  | r :: rs =>
    let court := runCourts cap r st players (List.range numCourts)
    let rest := runRounds cap numCourts players court.2.1 rs
    ({ id := "round-" ++ toString (r + 1), sets := court.1 } :: rest.1, rest.2)

/-- `generateRoundsCore(players, maxRounds, numCourts)` from `src/index.ts`:
returns the empty schedule when `numCourts` is zero, otherwise runs
`maxRounds` rounds of `numCourts` courts. -/
def generateRoundsCore (players : List String) (maxRounds numCourts : Nat) : List Round :=
  if numCourts = 0 then []
  else
    (runRounds (maxPairingFrequency maxRounds numCourts players.length) numCourts players
      initFreq (List.range maxRounds)).1

/-- All player occurrences of a set, team 1 then team 2. -/
def setPlayers (s : KOBSet) : List String :=
  s.teams.flatMap (fun ts => ts.team.players)

/-- All player occurrences across a list of sets. -/
def roundPlayers (sets : List KOBSet) : List String :=
  sets.flatMap setPlayers

/-! ## Elo rating engine (`src/elo.ts`)

Ratings and scores are JavaScript numbers.  All arithmetic the source performs
on them is embedded exactly over `ℚ` / `Int`, except the three genuinely
transcendental / rounding operations `Math.pow(10, _)`, `Math.exp` and
`Math.round`, which are abstracted as the fields of a `FloatOps` record; every
theorem below holds for all `FloatOps`.  Session ordering keys
(`new Date(id).getTime()`) are likewise abstracted as a function
`dateKey : String → Int`. -/

/-- The transcendental / rounding primitives of the source, abstracted. -/
structure FloatOps where
  fpow10 : ℚ → ℚ
  fexp : ℚ → ℚ
  fround : ℚ → Int

/-- Player rating data structure (`PlayerRating` in `src/elo.ts`). -/
structure PlayerRating where
  name : String
  elo : ℚ
  wins : Nat
  losses : Nat
  pointsWon : Int
  pointsConceded : Int
  matchesPlayed : Nat
deriving DecidableEq, Repr

/-- Configuration parameters for the Elo rating system. -/
structure EloConfig where
  initialRating : ℚ
  kFactor : ℚ
  kFactorMin : ℚ
  kFactorDecay : ℚ
  pointDiffWeight : ℚ
deriving DecidableEq, Repr

/-- Default Elo configuration values. -/
def DEFAULT_ELO_CONFIG : EloConfig :=
  { initialRating := 1000
    kFactor := 32
    kFactorMin := 16
    kFactorDecay := 1 / 10
    pointDiffWeight := 1 / 100 }

/-- `getExpectedScore(ratingA, ratingB) = 1 / (1 + 10 ^ ((ratingB - ratingA) / 400))`. -/
def getExpectedScore (ops : FloatOps) (ratingA ratingB : ℚ) : ℚ :=
  1 / (1 + ops.fpow10 ((ratingB - ratingA) / 400))

/-- `getKFactor(matchesPlayed) = max(kFactorMin, kFactor * exp(-kFactorDecay * matchesPlayed))`. -/
def getKFactor (ops : FloatOps) (matchesPlayed : Nat) (config : EloConfig) : ℚ :=
  max config.kFactorMin (config.kFactor * ops.fexp (-config.kFactorDecay * matchesPlayed))

/-- `updatePlayerRatings` from `src/elo.ts`: the pairwise Elo update.  Returns
the two fully updated records (the caller `calculateEloRatings` copies back
only the `elo` fields). -/
def updatePlayerRatings (ops : FloatOps) (playerA playerB : PlayerRating)
    (scoreA scoreB : Int) (config : EloConfig) : PlayerRating × PlayerRating :=
  let expectedA := getExpectedScore ops playerA.elo playerB.elo
  let expectedB := getExpectedScore ops playerB.elo playerA.elo
  let actualA : ℚ := if scoreA > scoreB then 1 else if scoreA = scoreB then 1 / 2 else 0
  let actualB : ℚ := 1 - actualA
  let totalPoints : Int := scoreA + scoreB
  let pointDiffA : ℚ := if totalPoints > 0 then ((scoreA - scoreB : Int) : ℚ) / (totalPoints : ℚ) else 0
  let pointDiffFactor : ℚ := config.pointDiffWeight * |pointDiffA|
  let kFactorA := getKFactor ops playerA.matchesPlayed config
  let kFactorB := getKFactor ops playerB.matchesPlayed config
  let changeA : Int := ops.fround (kFactorA * ((actualA - expectedA) + pointDiffFactor * pointDiffA))
  let changeB : Int := ops.fround (kFactorB * ((actualB - expectedB) - pointDiffFactor * pointDiffA))
  ( { playerA with
        elo := playerA.elo + changeA
        wins := playerA.wins + (if actualA = 1 then 1 else 0)
        losses := playerA.losses + (if actualA = 0 then 1 else 0)
        pointsWon := playerA.pointsWon + scoreA
        pointsConceded := playerA.pointsConceded + scoreB
        matchesPlayed := playerA.matchesPlayed + 1 }
  , { playerB with
        elo := playerB.elo + changeB
        wins := playerB.wins + (if actualB = 1 then 1 else 0)
        losses := playerB.losses + (if actualB = 0 then 1 else 0)
        pointsWon := playerB.pointsWon + scoreB
        pointsConceded := playerB.pointsConceded + scoreA
        matchesPlayed := playerB.matchesPlayed + 1 } )

/-! The `playerRatings` record of `calculateEloRatings` is a string-keyed
JavaScript object: keys are in insertion order, and during match processing
only existing keys are written (both loops guard on presence).  It is
modelled as a `List PlayerRating` in key order. -/

/-- `playerRatings[n]`, `none` when `n` is not a key. -/
def rlookup (m : List PlayerRating) (n : String) : Option PlayerRating :=
  m.find? (fun r => r.name = n)

/-- Overwrite the value at existing key `n` by `f`. -/
def rupdate (m : List PlayerRating) (n : String) (f : PlayerRating → PlayerRating) :
    List PlayerRating :=
  m.map (fun r => if r.name = n then f r else r)

/-- `playerRatings[r.name] = r`: overwrite when present, append when fresh. -/
def rinsert (m : List PlayerRating) (r : PlayerRating) : List PlayerRating :=
  if m.any (fun x => x.name = r.name) then m.map (fun x => if x.name = r.name then r else x)
  else m ++ [r]

/-- The fresh rating record a roster player is initialized to. -/
def freshRating (n : String) (config : EloConfig) : PlayerRating :=
  { name := n, elo := config.initialRating, wins := 0, losses := 0
    pointsWon := 0, pointsConceded := 0, matchesPlayed := 0 }

/-- `db.data.players.forEach(player => { playerRatings[player.name] = {...} })`. -/
def initRatings (players : List Player) (config : EloConfig) : List PlayerRating :=
  players.foldl (fun m p => rinsert m (freshRating p.name config)) []

/-- One cross-team pair update: skip the pair when either player is absent
from the table, otherwise compute `updatePlayerRatings` on the two current
records and write back only the `elo` fields, first player first. -/
def pairStep (ops : FloatOps) (config : EloConfig) (pts₁ pts₂ : Int)
    (m : List PlayerRating) (pr : String × String) : List PlayerRating :=
  match rlookup m pr.1, rlookup m pr.2 with
  | some r₁, some r₂ =>
    let u := updatePlayerRatings ops r₁ r₂ pts₁ pts₂ config
    rupdate (rupdate m pr.1 (fun r => { r with elo := u.1.elo })) pr.2
      (fun r => { r with elo := u.2.elo })
  | _, _ => m

/-- The pairwise Elo phase of one set: the nested
`for (player1 of team1) for (player2 of team2)` loops, each pair applied
immediately to the table before the next pair is processed. -/
def eloPhase (ops : FloatOps) (config : EloConfig) (m : List PlayerRating)
    (t₁ t₂ : List String) (pts₁ pts₂ : Int) : List PlayerRating :=
  (crossPairs t₁ t₂).foldl (pairStep ops config pts₁ pts₂) m

/-- The aggregate-stats record update for player `p` of a set with team 1
`t₁` and point totals `pts₁`, `pts₂` (own/opposing chosen by membership in
team 1). -/
def statUpd (t₁ : List String) (pts₁ pts₂ : Int) (p : String) (r : PlayerRating) : PlayerRating :=
  let isTeam1 := t₁.contains p
  let own := if isTeam1 then pts₁ else pts₂
  let opp := if isTeam1 then pts₂ else pts₁
  { r with
      wins := r.wins + (if own > opp then 1 else 0)
      losses := r.losses + (if own < opp then 1 else 0)
      pointsWon := r.pointsWon + own
      pointsConceded := r.pointsConceded + opp
      matchesPlayed := r.matchesPlayed + 1 }

/-- One player's aggregate-stats update after the Elo phase: skipped when the
player is absent from the table. -/
def statStep (t₁ : List String) (pts₁ pts₂ : Int) (m : List PlayerRating)
    (p : String) : List PlayerRating :=
  match rlookup m p with
  | none => m
  | some _ => rupdate m p (statUpd t₁ pts₁ pts₂ p)

/-- The aggregate-stats phase of one set: one update per listed player, team 1
then team 2. -/
def statsPhase (m : List PlayerRating) (t₁ t₂ : List String) (pts₁ pts₂ : Int) :
    List PlayerRating :=
  (t₁ ++ t₂).foldl (statStep t₁ pts₁ pts₂) m

/-- Processing of one set: skipped unless it has exactly two teams and at
least one nonzero point total; otherwise the four pairwise Elo updates, then
the aggregate-stats updates. -/
def processSet (ops : FloatOps) (config : EloConfig) (m : List PlayerRating)
    (s : KOBSet) : List PlayerRating :=
  match s.teams with
  | [ts₁, ts₂] =>
    if ts₁.points = 0 ∧ ts₂.points = 0 then m
    else
      statsPhase (eloPhase ops config m ts₁.team.players ts₂.team.players ts₁.points ts₂.points)
        ts₁.team.players ts₂.team.players ts₁.points ts₂.points
  | _ => m

/-- The full replay: initialize the roster, sort sessions ascending by date
key (a stable sort), process every set of every round of every session in
stored order.  This is the rating table before the final filter/sort. -/
def eloTableRaw (ops : FloatOps) (dateKey : String → Int) (data : Data)
    (config : EloConfig) : List PlayerRating :=
  (sortByKey (fun s => dateKey s.id) data.sessions).foldl
    (fun m s => s.rounds.foldl (fun m r => r.sets.foldl (processSet ops config) m) m)
    (initRatings data.players config)

/-- `calculateEloRatings` from `src/elo.ts`: the replayed table, restricted to
players with at least 8 matches, sorted by Elo descending (stable). -/
def calculateEloRatings (ops : FloatOps) (dateKey : String → Int) (data : Data)
    (config : EloConfig) : List PlayerRating :=
  sortByKey (fun p => -p.elo)
    ((eloTableRaw ops dateKey data config).filter (fun p => 8 ≤ p.matchesPlayed))

/-! ## Spec-side reference definitions

The following definitions follow the *specification's words* (§4.2 steps 2–4
of `spec.md`), not the source; they exist only to be compared against the
embedded source functions above.  In a generation call with no supplied
history the spec's global and session-scoped tables coincide with the call's
tables, so both are drawn from the same `FreqState`. -/

/-- Spec §4.2 step 2 key: the sum of (global teammate + global opponent)
frequency of `a` against all *other* available players. -/
def specFirstKey (st : FreqState) (avail : List String) (a : String) : Nat :=
  sumFreq st.teammate a (avail.filter (fun q => q ≠ a)) +
    sumFreq st.opponent a (avail.filter (fun q => q ≠ a))

/-- Spec §4.2 step 2: among available players, the one minimizing
`specFirstKey`, ties broken by ascending lexicographic name comparison
(`String`s compare lexicographically by their character lists). -/
def specFirstPick (st : FreqState) (avail : List String) : Option String :=
  match firstMinBy (specFirstKey st avail) avail with
  | none => none
  | some m =>
    match avail.filter (fun a => specFirstKey st avail a = specFirstKey st avail m) with
    | [] => some m
    | x :: xs => some (xs.foldl (fun best a => if a.data < best.data then a else best) x)

/-- Spec §4.2 step 3, Filter A: global teammate frequency below the cap, zero
session-teammate and zero session-opponent history with every chosen player. -/
def specFilterA (cap : Nat) (st : FreqState) (court : List String) (p : String) : Bool :=
  court.all (fun e => st.teammate p e < cap ∧ st.teammate p e = 0 ∧ st.opponent p e = 0)

/-- Spec §4.2 step 3, Filter B: the global cap constraint, zero
session-teammate history, at most one session-opponent repeat. -/
def specFilterB (cap : Nat) (st : FreqState) (court : List String) (p : String) : Bool :=
  court.all (fun e => st.teammate p e < cap ∧ st.teammate p e = 0 ∧ st.opponent p e ≤ 1)

/-- Spec §4.2 step 3: sort candidates by score ascending, take the first
candidate passing Filter A, else the first passing Filter B, else the
top-scored candidate. -/
def specFilterChainSelect (cap : Nat) (st : FreqState) (court : List String)
    (avail : List String) : Option String :=
  let sorted := sortByKey (slotKey st court) avail
  match sorted.find? (specFilterA cap st court) with
  | some p => some p
  | none =>
    match sorted.find? (specFilterB cap st court) with
    | some p => some p
    | none => sorted.head?

/-- Absolute value on `ℚ` (an executable unfolding of `|·|`). -/
def qabs (x : ℚ) : ℚ := if x < 0 then -x else x

/-- `10 ^ n` on `ℚ` (an executable unfolding of the power). -/
def qpowTen : Nat → ℚ
  | 0 => 1
  | n + 1 => 10 * qpowTen n

/-- Spec §4.2 step 4 split score:
`200·|ratingSum(A) − ratingSum(B)| + hist + 50·sess + 100·Σ 10^(sessOpp+1)`. -/
def specOverallScore (ratingOf : String → ℚ) (histTeam sessTeam sessOpp : String → String → Nat)
    (t : (String × String) × (String × String)) : ℚ :=
  200 * qabs (ratingOf t.1.1 + ratingOf t.1.2 - (ratingOf t.2.1 + ratingOf t.2.2)) +
    (histTeam t.1.1 t.1.2 + histTeam t.2.1 t.2.2 : Nat) +
    50 * (sessTeam t.1.1 t.1.2 + sessTeam t.2.1 t.2.2 : Nat) +
    100 * (((crossPairs [t.1.1, t.1.2] [t.2.1, t.2.2]).map
      (fun pr => qpowTen (sessOpp pr.1 pr.2 + 1))).sum)

/-- Spec §4.2 step 4: sort the four chosen players by rating descending,
evaluate the three rank-position splits {1st+4th vs 2nd+3rd},
{1st+3rd vs 2nd+4th}, {1st+2nd vs 3rd+4th}, and choose the split with the
lowest `specOverallScore`. -/
def specBalancedTeams (ratingOf : String → ℚ)
    (histTeam sessTeam sessOpp : String → String → Nat)
    (p₁ p₂ p₃ p₄ : String) : (String × String) × (String × String) :=
  match sortByKey (fun p => -ratingOf p) [p₁, p₂, p₃, p₄] with
  | [a, b, c, d] =>
    let combos := [((a, d), (b, c)), ((a, c), (b, d)), ((a, b), (c, d))]
    (firstMinBy (specOverallScore ratingOf histTeam sessTeam sessOpp) combos).getD
      ((a, d), (b, c))
  | _ => ((p₁, p₂), (p₃, p₄))

/-- A two-player list equals an unordered pair. -/
def pairSetEq (t : List String) (u : String × String) : Prop :=
  t = [u.1, u.2] ∨ t = [u.2, u.1]

/-! ### Concrete run states used by the refutations -/

/-- The roster of the C1/C3 refutations. -/
def rosterABCD : List String := ["a", "b", "c", "d"]

/-- The ratings of the C1 refutation: `a` 1200, `b` 1100, `c` 1000, `d` 900. -/
def ratingsC1 : String → ℚ :=
  fun p => if p = "a" then 1200 else if p = "b" then 1100 else if p = "c" then 1000 else 900

/-- The frequency state after round 1 of `generateRoundsCore ["a","b","c","d"] 3 1`
(whose cap is `maxPairingFrequency 3 1 4 = 2`). -/
def stAfterR1C3 : FreqState :=
  (runRounds (maxPairingFrequency 3 1 4) 1 rosterABCD initFreq [0]).2

/-- The roster of the C6 refutation: eight players in reverse alphabetical
order. -/
def rosterRev8 : List String := ["h", "g", "f", "e", "d", "c", "b", "a"]

/-- The frequency state after round 1 of `generateRoundsCore rosterRev8 2 1`
(whose cap is `maxPairingFrequency 2 1 8 = 1`). -/
def stAfterR1C6 : FreqState :=
  (runRounds (maxPairingFrequency 2 1 8) 1 rosterRev8 initFreq [0]).2

/-- The non-Elo fields of a rating record (everything except `elo`). -/
def nonEloData (r : PlayerRating) : String × Nat × Nat × Int × Int × Nat :=
  (r.name, r.wins, r.losses, r.pointsWon, r.pointsConceded, r.matchesPlayed)

/-! ## Lemmas about the stable sort and the selection primitives -/

theorem sortByKey_perm {α β : Type} [LinearOrder β] (key : α → β) (l : List α) :
    List.Perm (sortByKey key l) l :=
  List.perm_insertionSort _ l

theorem mem_sortByKey {α β : Type} [LinearOrder β] {key : α → β} {l : List α} {a : α} :
    a ∈ sortByKey key l ↔ a ∈ l :=
  (sortByKey_perm key l).mem_iff

theorem sortByKey_length {α β : Type} [LinearOrder β] (key : α → β) (l : List α) :
    (sortByKey key l).length = l.length :=
  (sortByKey_perm key l).length_eq

theorem sortByKey_nodup {α β : Type} [LinearOrder β] {key : α → β} {l : List α}
    (h : l.Nodup) : (sortByKey key l).Nodup :=
  ((sortByKey_perm key l).nodup_iff).mpr h

theorem sortByKey_sorted {α β : Type} [LinearOrder β] (key : α → β) (l : List α) :
    (sortByKey key l).Sorted (fun a b => key a ≤ key b) := by
  haveI : IsTotal α (fun a b => key a ≤ key b) := ⟨fun a b => le_total _ _⟩
  haveI : IsTrans α (fun a b => key a ≤ key b) := ⟨fun _ _ _ h₁ h₂ => le_trans h₁ h₂⟩
  exact List.sorted_insertionSort _ l

theorem firstMinBy_eq_none {α β : Type} [LinearOrder β] {key : α → β} {l : List α} :
    firstMinBy key l = none ↔ l = [] := by
  cases l with
  | nil => simp [firstMinBy]
  | cons x xs =>
    simp only [firstMinBy]
    cases firstMinBy key xs with
    | none => simp
    | some m =>
      by_cases h : key x ≤ key m <;> simp [h]

theorem sortByKey_head? {α β : Type} [LinearOrder β] (key : α → β) (l : List α) :
    (sortByKey key l).head? = firstMinBy key l := by
  induction l with
  | nil => rfl
  | cons x xs ih =>
    show (List.orderedInsert _ x (sortByKey key xs)).head? = _
    rw [firstMinBy, ← ih]
    cases hs : sortByKey key xs with
    | nil => simp [List.orderedInsert]
    | cons y ys =>
      by_cases h : key x ≤ key y
      · simp [List.orderedInsert, h]
      · simp [List.orderedInsert, h]

/-- `firstMinBy` returns the earliest element attaining the minimal key. -/
theorem firstMinBy_spec {α β : Type} [LinearOrder β] {key : α → β} {l : List α} {m : α}
    (h : firstMinBy key l = some m) :
    ∃ pre post, l = pre ++ m :: post ∧ (∀ x ∈ pre, key m < key x) ∧
      ∀ x ∈ l, key m ≤ key x := by
  induction l generalizing m with
  | nil => simp [firstMinBy] at h
  | cons x xs ih =>
    rw [firstMinBy] at h
    cases hxs : firstMinBy key xs with
    | none =>
      rw [hxs] at h
      have : x = m := by simpa using h
      subst this
      have : xs = [] := firstMinBy_eq_none.mp hxs
      subst this
      exact ⟨[], [], rfl, by simp, by simp⟩
    | some m' =>
      rw [hxs] at h
      obtain ⟨pre', post', hsplit, hpre', hall'⟩ := ih hxs
      by_cases hle : key x ≤ key m'
      · have : x = m := by simpa [hle] using h
        subst this
        refine ⟨[], xs, rfl, by simp, ?_⟩
        intro y hy
        rcases List.mem_cons.mp hy with rfl | hy
        · exact le_rfl
        · exact le_trans hle (hall' y hy)
      · have : m' = m := by simpa [hle] using h
        subst this
        refine ⟨x :: pre', post', by simp [hsplit], ?_, ?_⟩
        · intro y hy
          rcases List.mem_cons.mp hy with rfl | hy
          · exact lt_of_not_le hle
          · exact hpre' y hy
        · intro y hy
          rcases List.mem_cons.mp hy with rfl | hy
          · exact le_of_lt (lt_of_not_le hle)
          · exact hall' y hy

/-- Splitting characterization of `List.find?`. -/
theorem find?_split {α : Type} {p : α → Bool} {l : List α} {a : α}
    (h : l.find? p = some a) :
    ∃ pre post, l = pre ++ a :: post ∧ p a = true ∧ ∀ x ∈ pre, p x = false := by
  induction l with
  | nil => simp [List.find?] at h
  | cons x xs ih =>
    by_cases hx : p x = true
    · have : x = a := by
        rw [List.find?_cons_of_pos _ hx] at h
        simpa using h
      subst this
      exact ⟨[], xs, rfl, hx, by simp⟩
    · rw [List.find?_cons_of_neg _ hx] at h
      obtain ⟨pre, post, hsplit, hpa, hpre⟩ := ih h
      refine ⟨x :: pre, post, by simp [hsplit], hpa, ?_⟩
      intro y hy
      rcases List.mem_cons.mp hy with rfl | hy
      · simpa using hx
      · exact hpre y hy

theorem filter_ne_cons_perm {l : List String} (hnd : l.Nodup) {a : String} (ha : a ∈ l) :
    List.Perm l (a :: l.filter (fun p => p ≠ a)) := by
  induction l with
  | nil => cases ha
  | cons x xs ih =>
    rcases List.mem_cons.mp ha with rfl | ha'
    · have hx : a ∉ xs := (List.nodup_cons.mp hnd).1
      have hfil : xs.filter (fun p => p ≠ a) = xs := by
        rw [List.filter_eq_self]
        intro b hb
        have : b ≠ a := fun hbx => hx (hbx ▸ hb)
        simpa using this
      have hhead : (a :: xs).filter (fun p => p ≠ a) = xs.filter (fun p => p ≠ a) := by
        simp
      rw [hhead, hfil]
    · have hx : x ≠ a := fun h => (List.nodup_cons.mp hnd).1 (h ▸ ha')
      have hstep := (ih (List.nodup_cons.mp hnd).2 ha').cons x
      have hswap : List.Perm (x :: a :: xs.filter (fun p => p ≠ a))
          (a :: x :: xs.filter (fun p => p ≠ a)) := List.Perm.swap _ _ _
      have hfil : (x :: xs).filter (fun p => p ≠ a) = x :: xs.filter (fun p => p ≠ a) := by
        simp [hx]
      rw [hfil]
      exact hstep.trans hswap

theorem pickFirst_perm (st : FreqState) (avail : List String) (h : avail ≠ []) :
    List.Perm avail ((pickFirst st avail).1 :: (pickFirst st avail).2) := by
  have hp := sortByKey_perm (firstPickKey st avail) avail
  cases hs : sortByKey (firstPickKey st avail) avail with
  | nil =>
    rw [hs] at hp
    exact absurd (hp.symm.eq_nil) h
  | cons y ys =>
    rw [hs] at hp
    simpa [pickFirst, hs] using hp.symm

theorem pickNext_sel_mem (cap : Nat) (st : FreqState) (court : List String)
    (avail : List String) (h : avail ≠ []) :
    (pickNext cap st court avail).1 ∈ avail := by
  have hp := sortByKey_perm (slotKey st court) avail
  rw [pickNext]
  cases hf : (sortByKey (slotKey st court) avail).find? (capOk cap st court) with
  | some p =>
    simp only [hf, Option.getD_some]
    exact hp.mem_iff.mp (List.mem_of_find?_eq_some hf)
  | none =>
    simp only [hf, Option.getD_none]
    cases hs : sortByKey (slotKey st court) avail with
    | nil =>
      rw [hs] at hp
      exact absurd (hp.symm.eq_nil) h
    | cons y ys =>
      rw [hs] at hp
      exact hp.mem_iff.mp (by simp [hs])

theorem pickNext_perm (cap : Nat) (st : FreqState) (court : List String)
    (avail : List String) (h : avail ≠ []) (hnd : avail.Nodup) :
    List.Perm avail ((pickNext cap st court avail).1 :: (pickNext cap st court avail).2) := by
  have hp := sortByKey_perm (slotKey st court) avail
  have hndS : (sortByKey (slotKey st court) avail).Nodup := sortByKey_nodup hnd
  have hsel : (pickNext cap st court avail).1 ∈ sortByKey (slotKey st court) avail :=
    hp.mem_iff.mpr (pickNext_sel_mem cap st court avail h)
  have hrest : (pickNext cap st court avail).2 =
      (sortByKey (slotKey st court) avail).filter
        (fun p => p ≠ (pickNext cap st court avail).1) := rfl
  rw [hrest]
  exact hp.symm.trans (filter_ne_cons_perm hndS hsel)

theorem selectCourtPlayers_perm (cap : Nat) (st : FreqState) (avail : List String)
    (h4 : 4 ≤ avail.length) (hnd : avail.Nodup) :
    List.Perm avail
      ((selectCourtPlayers cap st avail).1.1 :: (selectCourtPlayers cap st avail).1.2.1 ::
        (selectCourtPlayers cap st avail).1.2.2.1 :: (selectCourtPlayers cap st avail).1.2.2.2 ::
        (selectCourtPlayers cap st avail).2) := by
  have h0 : avail ≠ [] := by
    intro he
    rw [he] at h4
    simp at h4
  have hp1 := pickFirst_perm st avail h0
  have hnd1 : ((pickFirst st avail).1 :: (pickFirst st avail).2).Nodup := hp1.nodup_iff.mp hnd
  have hnda1 : (pickFirst st avail).2.Nodup := (List.nodup_cons.mp hnd1).2
  have hlen1 : avail.length = (pickFirst st avail).2.length + 1 := by
    simpa using hp1.length_eq
  have h1ne : (pickFirst st avail).2 ≠ [] := by
    intro he
    rw [he] at hlen1
    simp at hlen1
    omega
  have hp2 := pickNext_perm cap st [(pickFirst st avail).1] _ h1ne hnda1
  have hnd2 := hp2.nodup_iff.mp hnda1
  have hnda2 := (List.nodup_cons.mp hnd2).2
  have hlen2 : (pickFirst st avail).2.length =
      (pickNext cap st [(pickFirst st avail).1] (pickFirst st avail).2).2.length + 1 := by
    simpa using hp2.length_eq
  have h2ne : (pickNext cap st [(pickFirst st avail).1] (pickFirst st avail).2).2 ≠ [] := by
    intro he
    rw [he] at hlen2
    simp at hlen2
    omega
  have hp3 := pickNext_perm cap st
    [(pickFirst st avail).1,
      (pickNext cap st [(pickFirst st avail).1] (pickFirst st avail).2).1] _ h2ne hnda2
  have hnd3 := hp3.nodup_iff.mp hnda2
  have hnda3 := (List.nodup_cons.mp hnd3).2
  have hlen3 := hp3.length_eq
  have h3ne :
      (pickNext cap st
        [(pickFirst st avail).1,
          (pickNext cap st [(pickFirst st avail).1] (pickFirst st avail).2).1]
        (pickNext cap st [(pickFirst st avail).1] (pickFirst st avail).2).2).2 ≠ [] := by
    intro he
    rw [he] at hlen3
    simp at hlen3
    omega
  have hp4 := pickNext_perm cap st
    [(pickFirst st avail).1,
      (pickNext cap st [(pickFirst st avail).1] (pickFirst st avail).2).1,
      (pickNext cap st
        [(pickFirst st avail).1,
          (pickNext cap st [(pickFirst st avail).1] (pickFirst st avail).2).1]
        (pickNext cap st [(pickFirst st avail).1] (pickFirst st avail).2).2).1] _ h3ne hnda3
  dsimp only [selectCourtPlayers]
  exact hp1.trans ((hp2.trans ((hp3.trans (hp4.cons _)).cons _)).cons _)

theorem setPlayers_mkSet (r c : Nat) (p₁ p₂ p₃ p₄ : String) :
    setPlayers (mkSet r c p₁ p₂ p₃ p₄) = [p₁, p₂, p₃, p₄] := rfl

/-- The players of the sets a court loop emits, together with the remaining
available players, are a permutation of the initial available players. -/
theorem runCourts_perm : ∀ (idxs : List Nat) (cap r : Nat) (st : FreqState)
    (avail : List String), avail.Nodup →
    List.Perm
      (roundPlayers (runCourts cap r st avail idxs).1 ++ (runCourts cap r st avail idxs).2.2)
      avail := by
  intro idxs
  induction idxs with
  | nil =>
    intro cap r st avail hnd
    simp [runCourts, roundPlayers]
  | cons c cs ih =>
    intro cap r st avail hnd
    by_cases hlt : avail.length < 4
    · simp only [runCourts, if_pos hlt]
      exact ih cap r st avail hnd
    · have h4 : 4 ≤ avail.length := by omega
      have hsel := selectCourtPlayers_perm cap st avail h4 hnd
      have hndsel := hsel.nodup_iff.mp hnd
      have hnda4 : (selectCourtPlayers cap st avail).2.Nodup := by
        have := (List.nodup_cons.mp hndsel).2
        have := (List.nodup_cons.mp this).2
        have := (List.nodup_cons.mp this).2
        exact (List.nodup_cons.mp this).2
      have hih := ih cap r (updateFrequencies st
        [(selectCourtPlayers cap st avail).1.1, (selectCourtPlayers cap st avail).1.2.1]
        [(selectCourtPlayers cap st avail).1.2.2.1, (selectCourtPlayers cap st avail).1.2.2.2])
        (selectCourtPlayers cap st avail).2 hnda4
      simp only [runCourts, if_neg hlt]
      rw [roundPlayers, List.flatMap_cons, setPlayers_mkSet, List.append_assoc]
      refine List.Perm.trans ?_ hsel.symm
      show List.Perm ([(selectCourtPlayers cap st avail).1.1, (selectCourtPlayers cap st avail).1.2.1,
        (selectCourtPlayers cap st avail).1.2.2.1, (selectCourtPlayers cap st avail).1.2.2.2] ++ _) _
    
      exact List.Perm.append_left _ hih

/-- The number of sets a court loop emits: one per court index until fewer
than four players remain. -/
theorem runCourts_count : ∀ (idxs : List Nat) (cap r : Nat) (st : FreqState)
    (avail : List String), avail.Nodup →
    (runCourts cap r st avail idxs).1.length = min idxs.length (avail.length / 4) := by
  intro idxs
  induction idxs with
  | nil =>
    intro cap r st avail hnd
    simp [runCourts]
  | cons c cs ih =>
    intro cap r st avail hnd
    by_cases hlt : avail.length < 4
    · simp only [runCourts, if_pos hlt]
      rw [ih cap r st avail hnd]
      have : avail.length / 4 = 0 := Nat.div_eq_of_lt hlt
      rw [this]
      simp
    · have h4 : 4 ≤ avail.length := by omega
      have hsel := selectCourtPlayers_perm cap st avail h4 hnd
      have hndsel := hsel.nodup_iff.mp hnd
      have hnda4 : (selectCourtPlayers cap st avail).2.Nodup := by
        have := (List.nodup_cons.mp hndsel).2
        have := (List.nodup_cons.mp this).2
        have := (List.nodup_cons.mp this).2
        exact (List.nodup_cons.mp this).2
      have hlen : avail.length = (selectCourtPlayers cap st avail).2.length + 4 := by
        simpa using hsel.length_eq
      simp only [runCourts, if_neg hlt]
      rw [List.length_cons]
      rw [ih cap r (updateFrequencies st
        [(selectCourtPlayers cap st avail).1.1, (selectCourtPlayers cap st avail).1.2.1]
        [(selectCourtPlayers cap st avail).1.2.2.1, (selectCourtPlayers cap st avail).1.2.2.2])
        (selectCourtPlayers cap st avail).2 hnda4]
      simp only [List.length_cons]
      omega

/-- Every set the court loop emits is the positional `mkSet` of the four
players selected by `selectCourtPlayers` at some intermediate scheduler state
with at least four available players. -/
theorem runCourts_sets_from_select : ∀ (idxs : List Nat) (cap r : Nat) (st : FreqState)
    (avail : List String), avail.Nodup →
    ∀ s ∈ (runCourts cap r st avail idxs).1,
      ∃ (st' : FreqState) (avail' : List String) (c : Nat),
        4 ≤ avail'.length ∧ avail'.Nodup ∧
        s = mkSet r c (selectCourtPlayers cap st' avail').1.1
          (selectCourtPlayers cap st' avail').1.2.1
          (selectCourtPlayers cap st' avail').1.2.2.1
          (selectCourtPlayers cap st' avail').1.2.2.2 := by
  intro idxs
  induction idxs with
  | nil =>
    intro cap r st avail hnd s hs
    simp [runCourts] at hs
  | cons c cs ih =>
    intro cap r st avail hnd s hs
    by_cases hlt : avail.length < 4
    · simp only [runCourts, if_pos hlt] at hs
      exact ih cap r st avail hnd s hs
    · have h4 : 4 ≤ avail.length := by omega
      have hsel := selectCourtPlayers_perm cap st avail h4 hnd
      have hndsel := hsel.nodup_iff.mp hnd
      have hnda4 : (selectCourtPlayers cap st avail).2.Nodup := by
        have := (List.nodup_cons.mp hndsel).2
        have := (List.nodup_cons.mp this).2
        have := (List.nodup_cons.mp this).2
        exact (List.nodup_cons.mp this).2
      simp only [runCourts, if_neg hlt] at hs
      rcases List.mem_cons.mp hs with rfl | hs'
      · exact ⟨st, avail, c, h4, hnd, rfl⟩
      · exact ih cap r _ _ hnda4 s hs'

theorem runRounds_length : ∀ (rs : List Nat) (cap numCourts : Nat) (players : List String)
    (st : FreqState), (runRounds cap numCourts players st rs).1.length = rs.length := by
  intro rs
  induction rs with
  | nil => intro cap numCourts players st; rfl
  | cons r rs ih =>
    intro cap numCourts players st
    simp only [runRounds, List.length_cons]
    rw [ih]

/-- Every round the round loop emits consists of the sets of one court loop
run from the full roster at some intermediate frequency state. -/
theorem runRounds_rounds : ∀ (rs : List Nat) (cap numCourts : Nat) (players : List String)
    (st : FreqState), ∀ round ∈ (runRounds cap numCourts players st rs).1,
      ∃ (r : Nat) (st' : FreqState),
        round.id = "round-" ++ toString (r + 1) ∧
        round.sets = (runCourts cap r st' players (List.range numCourts)).1 := by
  intro rs
  induction rs with
  | nil =>
    intro cap numCourts players st round hr
    simp [runRounds] at hr
  | cons r rs ih =>
    intro cap numCourts players st round hr
    simp only [runRounds] at hr
    rcases List.mem_cons.mp hr with rfl | hr'
    · exact ⟨r, st, rfl, rfl⟩
    · exact ih cap numCourts players _ round hr'

theorem nodup_of_mem_flatMap {α β : Type} (f : α → List β) {l : List α}
    (h : (l.flatMap f).Nodup) {x : α} (hx : x ∈ l) : (f x).Nodup := by
  induction l with
  | nil => cases hx
  | cons y ys ih =>
    rw [List.flatMap_cons] at h
    rcases List.mem_cons.mp hx with rfl | hx'
    · exact h.of_append_left
    · exact ih h.of_append_right hx'

/-! ## Claims about the round scheduler -/

/-- Claim C1, counterexample.  Roster `["a","b","c","d"]`, one round, one
court, ratings a=1200 > b=1100 > c=1000 > d=900, no pairing history.  The
spec's procedure (sort by rating descending, evaluate the 3 rank splits,
take the lowest `overallScore`) selects the split {a,d} vs {b,c} — its score
4000 strictly beats 44000 and 84000 — but the emitted schedule teams a with b
and c with d, which is neither spec team in any order: the scheduler forms
teams positionally and consults no ratings. -/
theorem C1_counterexample :
    generateRoundsCore rosterABCD 1 1 =
      [{ id := "round-1", sets := [mkSet 0 0 "a" "b" "c" "d"] }] ∧
    specBalancedTeams ratingsC1 initFreq.teammate initFreq.teammate initFreq.opponent
      "a" "b" "c" "d" = (("a", "d"), ("b", "c")) ∧
    ¬ (pairSetEq ["a", "b"] ("a", "d") ∨ pairSetEq ["a", "b"] ("b", "c")) := by
  refine ⟨by decide, ?_, ?_⟩
  · have ra : ratingsC1 "a" = 1200 := rfl
    have rb : ratingsC1 "b" = 1100 := rfl
    have rc : ratingsC1 "c" = 1000 := rfl
    have rd : ratingsC1 "d" = 900 := rfl
    have hz : ∀ x y, initFreq.teammate x y = 0 := fun _ _ => rfl
    have hzo : ∀ x y, initFreq.opponent x y = 0 := fun _ _ => rfl
    have hsort : sortByKey (fun p => -ratingsC1 p) ["a", "b", "c", "d"] = ["a", "b", "c", "d"] := by
      simp only [sortByKey, List.insertionSort, List.orderedInsert]
      norm_num [ra, rb, rc, rd]
    have s₁ : specOverallScore ratingsC1 initFreq.teammate initFreq.teammate initFreq.opponent
        (("a", "d"), ("b", "c")) = 4000 := by
      norm_num [specOverallScore, qabs, qpowTen, crossPairs, ra, rb, rc, rd, hz, hzo]
    have s₂ : specOverallScore ratingsC1 initFreq.teammate initFreq.teammate initFreq.opponent
        (("a", "c"), ("b", "d")) = 44000 := by
      norm_num [specOverallScore, qabs, qpowTen, crossPairs, ra, rb, rc, rd, hz, hzo]
    have s₃ : specOverallScore ratingsC1 initFreq.teammate initFreq.teammate initFreq.opponent
        (("a", "b"), ("c", "d")) = 84000 := by
      norm_num [specOverallScore, qabs, qpowTen, crossPairs, ra, rb, rc, rd, hz, hzo]
    have hmin : firstMinBy
        (specOverallScore ratingsC1 initFreq.teammate initFreq.teammate initFreq.opponent)
        [(("a", "d"), ("b", "c")), (("a", "c"), ("b", "d")), (("a", "b"), ("c", "d"))] =
        some (("a", "d"), ("b", "c")) := by
      simp only [firstMinBy]
      norm_num [s₁, s₂, s₃]
    rw [specBalancedTeams, hsort]
    simp only [hmin]
    rfl
  · unfold pairSetEq
    decide

/-- Claim C1, amended.  After the four court players are chosen, the two
emitted teams are formed positionally: team 1 is the first and second
selection and team 2 the third and fourth.  The embedded scheduler takes no
ratings and performs no split evaluation. -/
theorem C1_amended_positional_teams (cap r c : Nat) (idxs : List Nat) (st : FreqState)
    (avail : List String) (hnd : avail.Nodup) (h4 : 4 ≤ avail.length) :
    (∀ s ∈ (runCourts cap r st avail idxs).1,
      ∃ (st' : FreqState) (avail' : List String), 4 ≤ avail'.length ∧
        s.teams =
          [ { team := { players := [(selectCourtPlayers cap st' avail').1.1,
                (selectCourtPlayers cap st' avail').1.2.1] }, points := 0 },
            { team := { players := [(selectCourtPlayers cap st' avail').1.2.2.1,
                (selectCourtPlayers cap st' avail').1.2.2.2] }, points := 0 } ]) ∧
    (runCourts cap r st avail [c]).1 =
      [mkSet r c (selectCourtPlayers cap st avail).1.1 (selectCourtPlayers cap st avail).1.2.1
        (selectCourtPlayers cap st avail).1.2.2.1 (selectCourtPlayers cap st avail).1.2.2.2] := by
  constructor
  · intro s hs
    obtain ⟨st', avail', c', h4', hnd', hmk⟩ := runCourts_sets_from_select idxs cap r st avail hnd s hs
    exact ⟨st', avail', h4', by rw [hmk]; rfl⟩
  · simp only [runCourts, if_neg (Nat.not_lt.mpr h4)]

/-- Witness for the amended claim C1 at a concrete input. -/
theorem C1_amended_positional_teams_witness :
    (runCourts 1 0 initFreq rosterABCD [0]).1 =
      [mkSet 0 0 (selectCourtPlayers 1 initFreq rosterABCD).1.1
        (selectCourtPlayers 1 initFreq rosterABCD).1.2.1
        (selectCourtPlayers 1 initFreq rosterABCD).1.2.2.1
        (selectCourtPlayers 1 initFreq rosterABCD).1.2.2.2] :=
  (C1_amended_positional_teams 1 0 0 [0] initFreq rosterABCD (by decide) (by decide)).2

/-- Claim C2.  For every roster of distinct names with `1 ≤ C` and
`N ≥ 4·C`, the scheduler returns exactly `R` rounds, each with exactly `C`
court assignments, each assignment with exactly two teams of exactly two
players, and the four players of each court pairwise distinct. -/
theorem C2_schedule_shape (players : List String) (R C : Nat)
    (hnd : players.Nodup) (hC : 1 ≤ C) (hN : 4 * C ≤ players.length) :
    (generateRoundsCore players R C).length = R ∧
    ∀ round ∈ generateRoundsCore players R C,
      round.sets.length = C ∧
      ∀ s ∈ round.sets,
        s.teams.length = 2 ∧
        (∀ ts ∈ s.teams, ts.team.players.length = 2) ∧
        (setPlayers s).Nodup := by
  have hC0 : ¬ C = 0 := by omega
  constructor
  · simp only [generateRoundsCore, if_neg hC0]
    rw [runRounds_length, List.length_range]
  · intro round hr
    simp only [generateRoundsCore, if_neg hC0] at hr
    obtain ⟨r, st', _, hsets⟩ := runRounds_rounds (List.range R) _ C players initFreq round hr
    constructor
    · rw [hsets, runCourts_count _ _ _ _ _ hnd, List.length_range]
      omega
    · intro s hs
      rw [hsets] at hs
      have hflat : (roundPlayers (runCourts
          (maxPairingFrequency R C players.length) r st' players (List.range C)).1).Nodup := by
        have hperm := runCourts_perm (List.range C)
          (maxPairingFrequency R C players.length) r st' players hnd
        exact (hperm.nodup_iff.mpr hnd).of_append_left
      have hplayers : (setPlayers s).Nodup :=
        nodup_of_mem_flatMap setPlayers hflat hs
      obtain ⟨st'', avail', c, _, _, hmk⟩ := runCourts_sets_from_select (List.range C)
        (maxPairingFrequency R C players.length) r st' players hnd s hs
      subst hmk
      refine ⟨rfl, ?_, hplayers⟩
      intro ts hts
      rcases List.mem_cons.mp hts with rfl | hts'
      · rfl
      · rcases List.mem_cons.mp hts' with rfl | hts''
        · rfl
        · cases hts''

/-- Witness for claim C2 at a concrete input. -/
theorem C2_schedule_shape_witness :
    (generateRoundsCore ["a", "b", "c", "d"] 1 1).length = 1 ∧
    ∀ round ∈ generateRoundsCore ["a", "b", "c", "d"] 1 1,
      round.sets.length = 1 ∧
      ∀ s ∈ round.sets,
        s.teams.length = 2 ∧
        (∀ ts ∈ s.teams, ts.team.players.length = 2) ∧
        (setPlayers s).Nodup :=
  C2_schedule_shape ["a", "b", "c", "d"] 1 1 (by decide) (by decide) (by decide)

/-- Claim C3, counterexample.  Roster `["a","b","c","d"]`, three rounds, one
court (cap 2).  After round 1 (teams {a,b} vs {c,d}), filling round 2's court
picks "a" first; for slot 2 the code's single cap filter accepts the
top-sorted candidate "b" (global teammate frequency 1 < 2) even though "b" has
session-teammate history with "a", while the spec's Filter A/Filter B chain
rejects "b" (nonzero session-teammate count) and selects "c" under Filter B.
The emitted schedule indeed re-teams a with b in round 2. -/
theorem C3_counterexample :
    maxPairingFrequency 3 1 rosterABCD.length = 2 ∧
    (pickFirst stAfterR1C3 rosterABCD).1 = "a" ∧
    (pickNext 2 stAfterR1C3 ["a"] (pickFirst stAfterR1C3 rosterABCD).2).1 = "b" ∧
    specFilterChainSelect 2 stAfterR1C3 ["a"] (pickFirst stAfterR1C3 rosterABCD).2 = some "c" ∧
    generateRoundsCore rosterABCD 3 1 =
      [{ id := "round-1", sets := [mkSet 0 0 "a" "b" "c" "d"] },
       { id := "round-2", sets := [mkSet 1 0 "a" "b" "c" "d"] },
       { id := "round-3", sets := [mkSet 2 0 "a" "c" "b" "d"] }] ∧
    ("b" : String) ≠ "c" := by
  refine ⟨by decide, by decide, by decide, by decide, by decide, by decide⟩

/-- Claim C3, amended.  Slot selection applies a single eligibility filter —
global teammate frequency with every already-chosen player below the cap —
taking the first candidate (in score-sorted order) that passes it, and
otherwise falls back to the top-sorted candidate.  No session-scoped
teammate or opponent condition is consulted. -/
theorem C3_amended_single_filter (cap : Nat) (st : FreqState) (court avail : List String)
    (h : avail ≠ []) :
    (pickNext cap st court avail).1 ∈ avail ∧
    ((∃ pre post,
        sortByKey (slotKey st court) avail = pre ++ (pickNext cap st court avail).1 :: post ∧
        capOk cap st court (pickNext cap st court avail).1 = true ∧
        ∀ q ∈ pre, capOk cap st court q = false) ∨
      ((∀ q ∈ avail, capOk cap st court q = false) ∧
        (pickNext cap st court avail).1 = (sortByKey (slotKey st court) avail).headD "")) := by
  refine ⟨pickNext_sel_mem cap st court avail h, ?_⟩
  cases hf : (sortByKey (slotKey st court) avail).find? (capOk cap st court) with
  | some p =>
    have hsel : (pickNext cap st court avail).1 = p := by
      simp [pickNext, hf]
    obtain ⟨pre, post, hsplit, hcap, hpre⟩ := find?_split hf
    exact Or.inl ⟨pre, post, by rw [hsel]; exact hsplit, by rw [hsel]; exact hcap, hpre⟩
  | none =>
    refine Or.inr ⟨?_, by simp [pickNext, hf]⟩
    intro q hq
    have hq' : q ∈ sortByKey (slotKey st court) avail := mem_sortByKey.mpr hq
    have := List.find?_eq_none.mp hf q hq'
    simpa using this

/-- Witness for the amended claim C3 at a concrete input. -/
theorem C3_amended_single_filter_witness :
    (pickNext 2 stAfterR1C3 ["a"] ["b", "c", "d"]).1 ∈ ["b", "c", "d"] ∧
    ((∃ pre post,
        sortByKey (slotKey stAfterR1C3 ["a"]) ["b", "c", "d"] =
          pre ++ (pickNext 2 stAfterR1C3 ["a"] ["b", "c", "d"]).1 :: post ∧
        capOk 2 stAfterR1C3 ["a"] (pickNext 2 stAfterR1C3 ["a"] ["b", "c", "d"]).1 = true ∧
        ∀ q ∈ pre, capOk 2 stAfterR1C3 ["a"] q = false) ∨
      ((∀ q ∈ ["b", "c", "d"], capOk 2 stAfterR1C3 ["a"] q = false) ∧
        (pickNext 2 stAfterR1C3 ["a"] ["b", "c", "d"]).1 =
          (sortByKey (slotKey stAfterR1C3 ["a"]) ["b", "c", "d"]).headD "")) :=
  C3_amended_single_filter 2 stAfterR1C3 ["a"] ["b", "c", "d"] (by decide)

/-- Claim C5.  The scheduler is deterministic: two invocations with equal
inputs return equal schedules (the embedded scheduler takes no rating lookup;
its only inputs are the roster, the round count and the court count). -/
theorem C5_deterministic (p₁ p₂ : List String) (R₁ R₂ C₁ C₂ : Nat)
    (hp : p₁ = p₂) (hR : R₁ = R₂) (hC : C₁ = C₂) :
    generateRoundsCore p₁ R₁ C₁ = generateRoundsCore p₂ R₂ C₂ := by
  subst hp
  subst hR
  subst hC
  rfl

/-- Witness for claim C5 at a concrete input. -/
theorem C5_deterministic_witness :
    generateRoundsCore ["a", "b", "c", "d"] 2 1 = generateRoundsCore ["a", "b", "c", "d"] 2 1 :=
  C5_deterministic ["a", "b", "c", "d"] ["a", "b", "c", "d"] 2 2 1 1 rfl rfl rfl

/-- Claim C6, counterexample.  Roster of eight names in reverse alphabetical
order, two rounds, one court (cap 1).  Round 1 uses h,g,f,e.  Filling round
2's court, the code's first pick minimizes the *teammate-only* frequency sum
with ties left in current list order, selecting "d"; the claim's rule
(teammate + opponent sum, ties lexicographically first) selects "a" (all of
d,c,b,a tie at 0).  The emitted schedule indeed opens round 2 with "d". -/
theorem C6_counterexample :
    maxPairingFrequency 2 1 rosterRev8.length = 1 ∧
    (pickFirst stAfterR1C6 rosterRev8).1 = "d" ∧
    specFirstPick stAfterR1C6 rosterRev8 = some "a" ∧
    generateRoundsCore rosterRev8 2 1 =
      [{ id := "round-1", sets := [mkSet 0 0 "h" "g" "f" "e"] },
       { id := "round-2", sets := [mkSet 1 0 "d" "c" "b" "a"] }] ∧
    ("d" : String) ≠ "a" := by
  refine ⟨by decide, by decide, by decide, by decide, by decide⟩

/-- Claim C6, amended.  The first court player is the earliest available
player (in the current list order) attaining the minimal total *teammate*
frequency against the available players: earlier candidates have strictly
larger keys, and no candidate has a smaller key.  Opponent frequency plays no
role and ties are not broken lexicographically. -/
theorem C6_amended_first_pick (st : FreqState) (avail : List String) (h : avail ≠ []) :
    ∃ pre post, avail = pre ++ (pickFirst st avail).1 :: post ∧
      (∀ q ∈ pre, firstPickKey st avail (pickFirst st avail).1 < firstPickKey st avail q) ∧
      ∀ q ∈ avail, firstPickKey st avail (pickFirst st avail).1 ≤ firstPickKey st avail q := by
  have hlen : (sortByKey (firstPickKey st avail) avail).length = avail.length :=
    sortByKey_length _ _
  have hne : sortByKey (firstPickKey st avail) avail ≠ [] := by
    intro he
    rw [he] at hlen
    exact h (List.eq_nil_of_length_eq_zero hlen.symm)
  obtain ⟨y, ys, hys⟩ := List.exists_cons_of_ne_nil hne
  have hsel : (pickFirst st avail).1 = y := by
    simp [pickFirst, hys]
  have hfm : firstMinBy (firstPickKey st avail) avail = some y := by
    rw [← sortByKey_head?, hys]
    rfl
  rw [hsel]
  exact firstMinBy_spec hfm

/-- Witness for the amended claim C6 at a concrete input. -/
theorem C6_amended_first_pick_witness :
    ∃ pre post, rosterRev8 = pre ++ (pickFirst stAfterR1C6 rosterRev8).1 :: post ∧
      (∀ q ∈ pre, firstPickKey stAfterR1C6 rosterRev8 (pickFirst stAfterR1C6 rosterRev8).1 <
        firstPickKey stAfterR1C6 rosterRev8 q) ∧
      ∀ q ∈ rosterRev8, firstPickKey stAfterR1C6 rosterRev8 (pickFirst stAfterR1C6 rosterRev8).1 ≤
        firstPickKey stAfterR1C6 rosterRev8 q :=
  C6_amended_first_pick stAfterR1C6 rosterRev8 (by decide)

/-- Claim C9.  A zero court count yields the empty schedule rather than an
error; with a nonzero court count every round is still produced and exactly
`min C ⌊N/4⌋` courts are filled per round — a court with fewer than four
available players is skipped without aborting the schedule. -/
theorem C9_insufficient_players (players : List String) (R C : Nat) :
    generateRoundsCore players R 0 = [] ∧
    (C ≠ 0 → players.Nodup →
      (generateRoundsCore players R C).length = R ∧
      ∀ round ∈ generateRoundsCore players R C,
        round.sets.length = min C (players.length / 4)) := by
  constructor
  · simp [generateRoundsCore]
  · intro hC0 hnd
    constructor
    · simp only [generateRoundsCore, if_neg hC0]
      rw [runRounds_length, List.length_range]
    · intro round hr
      simp only [generateRoundsCore, if_neg hC0] at hr
      obtain ⟨r, st', _, hsets⟩ := runRounds_rounds (List.range R) _ C players initFreq round hr
      rw [hsets, runCourts_count _ _ _ _ _ hnd, List.length_range]

/-- Witness for claim C9 at a concrete input: five distinct players, two
rounds, two requested courts — each round fills only one court. -/
theorem C9_insufficient_players_witness :
    generateRoundsCore ["a", "b", "c", "d", "e"] 2 0 = [] ∧
    (2 ≠ 0 → (["a", "b", "c", "d", "e"] : List String).Nodup →
      (generateRoundsCore ["a", "b", "c", "d", "e"] 2 2).length = 2 ∧
      ∀ round ∈ generateRoundsCore ["a", "b", "c", "d", "e"] 2 2,
        round.sets.length = min 2 (["a", "b", "c", "d", "e"].length / 4)) :=
  C9_insufficient_players ["a", "b", "c", "d", "e"] 2 2

/-- Claim C10.  Within every round the scheduler produces, no player appears
in more than one court assignment: the concatenation of all court players of
a round has no duplicates. -/
theorem C10_no_player_twice_per_round (players : List String) (R C : Nat)
    (hnd : players.Nodup) :
    ∀ round ∈ generateRoundsCore players R C, (round.sets.flatMap setPlayers).Nodup := by
  intro round hr
  by_cases hC0 : C = 0
  · subst hC0
    simp [generateRoundsCore] at hr
  · simp only [generateRoundsCore, if_neg hC0] at hr
    obtain ⟨r, st', _, hsets⟩ := runRounds_rounds (List.range R) _ C players initFreq round hr
    rw [hsets]
    have hperm := runCourts_perm (List.range C)
      (maxPairingFrequency R C players.length) r st' players hnd
    exact (hperm.nodup_iff.mpr hnd).of_append_left

/-- Witness for claim C10 at a concrete input. -/
theorem C10_no_player_twice_per_round_witness :
    (({ id := "round-1", sets := [mkSet 0 0 "a" "b" "c" "d"] } : Round).sets.flatMap
      setPlayers).Nodup :=
  C10_no_player_twice_per_round ["a", "b", "c", "d"] 1 1 (by decide)
    { id := "round-1", sets := [mkSet 0 0 "a" "b" "c" "d"] } (by decide)

/-! ## Lemmas about the rating-table record operations -/

theorem rlookup_rupdate {m : List PlayerRating} {n x : String} {f : PlayerRating → PlayerRating}
    (hf : ∀ r, (f r).name = r.name) :
    rlookup (rupdate m n f) x = if x = n then (rlookup m x).map f else rlookup m x := by
  induction m with
  | nil => by_cases hxn : x = n <;> simp [rlookup, rupdate, hxn]
  | cons r rs ih =>
    have hname : (if r.name = n then f r else r).name = r.name := by
      by_cases h : r.name = n <;> simp [h, hf]
    have hunf : rupdate (r :: rs) n f = (if r.name = n then f r else r) :: rupdate rs n f := by
      simp [rupdate]
    by_cases hrx : r.name = x
    · rw [hunf, rlookup, List.find?_cons_of_pos _ (by simp only [hname, decide_eq_true_eq]; exact hrx)]
      by_cases hxn : x = n
      · have hrn : r.name = n := by rw [hrx, hxn]
        have hlook : rlookup (r :: rs) x = some r := by
          rw [rlookup, List.find?_cons_of_pos _ (by simp [hrx])]
        rw [if_pos hxn, if_pos hrn, hlook]
        rfl
      · have hrn : ¬ r.name = n := by rw [hrx]; exact hxn
        have hlook : rlookup (r :: rs) x = some r := by
          rw [rlookup, List.find?_cons_of_pos _ (by simp [hrx])]
        rw [if_neg hxn, if_neg hrn, hlook]
    · rw [hunf, rlookup, List.find?_cons_of_neg _ (by simp only [hname, decide_eq_true_eq]; exact hrx)]
      have hrhs : rlookup (r :: rs) x = rlookup rs x := by
        rw [rlookup, List.find?_cons_of_neg _ (by simp [hrx])]
        rfl
      show rlookup (rupdate rs n f) x = _
      rw [ih, hrhs]

theorem rlookup_rupdate_elo (m : List PlayerRating) (n x : String) (e : ℚ) :
    rlookup (rupdate m n (fun r => { r with elo := e })) x =
      if x = n then (rlookup m x).map (fun r => { r with elo := e }) else rlookup m x :=
  rlookup_rupdate (fun _ => rfl)

theorem rlookup_rupdate_stat (m : List PlayerRating) (n x : String) (t₁ : List String)
    (pts₁ pts₂ : Int) :
    rlookup (rupdate m n (statUpd t₁ pts₁ pts₂ n)) x =
      if x = n then (rlookup m x).map (statUpd t₁ pts₁ pts₂ n) else rlookup m x :=
  rlookup_rupdate (fun _ => rfl)

theorem pairStep_some (ops : FloatOps) (config : EloConfig) (pts₁ pts₂ : Int)
    (m : List PlayerRating) (pr : String × String) (r₁ r₂ : PlayerRating)
    (h₁ : rlookup m pr.1 = some r₁) (h₂ : rlookup m pr.2 = some r₂) :
    pairStep ops config pts₁ pts₂ m pr =
      rupdate
        (rupdate m pr.1 (fun r =>
          { r with elo := (updatePlayerRatings ops r₁ r₂ pts₁ pts₂ config).1.elo }))
        pr.2 (fun r =>
          { r with elo := (updatePlayerRatings ops r₁ r₂ pts₁ pts₂ config).2.elo }) := by
  unfold pairStep
  rw [h₁, h₂]

theorem pairStep_skip (ops : FloatOps) (config : EloConfig) (pts₁ pts₂ : Int)
    (m : List PlayerRating) (pr : String × String)
    (h : rlookup m pr.1 = none ∨ rlookup m pr.2 = none) :
    pairStep ops config pts₁ pts₂ m pr = m := by
  unfold pairStep
  cases h₁ : rlookup m pr.1 with
  | none => cases h₂ : rlookup m pr.2 <;> rfl
  | some r₁ =>
    cases h₂ : rlookup m pr.2 with
    | none => rfl
    | some r₂ =>
      rcases h with h | h
      · rw [h₁] at h; cases h
      · rw [h₂] at h; cases h

theorem pairStep_nonElo (ops : FloatOps) (config : EloConfig) (pts₁ pts₂ : Int)
    (m : List PlayerRating) (pr : String × String) (x : String) :
    (rlookup (pairStep ops config pts₁ pts₂ m pr) x).map nonEloData =
      (rlookup m x).map nonEloData := by
  cases h₁ : rlookup m pr.1 with
  | none => rw [pairStep_skip ops config pts₁ pts₂ m pr (Or.inl h₁)]
  | some r₁ =>
    cases h₂ : rlookup m pr.2 with
    | none => rw [pairStep_skip ops config pts₁ pts₂ m pr (Or.inr h₂)]
    | some r₂ =>
      rw [pairStep_some ops config pts₁ pts₂ m pr r₁ r₂ h₁ h₂,
        rlookup_rupdate_elo, rlookup_rupdate_elo]
      by_cases hx₂ : x = pr.2
      · rw [if_pos hx₂]
        by_cases hx₁ : x = pr.1
        · rw [if_pos hx₁]
          cases rlookup m x <;> rfl
        · rw [if_neg hx₁]
          cases rlookup m x <;> rfl
      · rw [if_neg hx₂]
        by_cases hx₁ : x = pr.1
        · rw [if_pos hx₁]
          cases rlookup m x <;> rfl
        · rw [if_neg hx₁]

theorem pairStep_isSome (ops : FloatOps) (config : EloConfig) (pts₁ pts₂ : Int)
    (m : List PlayerRating) (pr : String × String) (x : String) :
    (rlookup (pairStep ops config pts₁ pts₂ m pr) x).isSome = (rlookup m x).isSome := by
  have h := pairStep_nonElo ops config pts₁ pts₂ m pr x
  cases h₁ : rlookup (pairStep ops config pts₁ pts₂ m pr) x <;>
    cases h₂ : rlookup m x <;> rw [h₁, h₂] at h <;> simp at h ⊢

theorem foldl_pairStep_nonElo (ops : FloatOps) (config : EloConfig) (pts₁ pts₂ : Int) :
    ∀ (prs : List (String × String)) (m : List PlayerRating) (x : String),
      (rlookup (prs.foldl (pairStep ops config pts₁ pts₂) m) x).map nonEloData =
        (rlookup m x).map nonEloData := by
  intro prs
  induction prs with
  | nil => intro m x; rfl
  | cons pr prs ih =>
    intro m x
    rw [List.foldl_cons, ih, pairStep_nonElo]

theorem foldl_pairStep_none (ops : FloatOps) (config : EloConfig) (pts₁ pts₂ : Int)
    (prs : List (String × String)) (m : List PlayerRating) (x : String)
    (hx : rlookup m x = none) :
    rlookup (prs.foldl (pairStep ops config pts₁ pts₂) m) x = none := by
  have h := foldl_pairStep_nonElo ops config pts₁ pts₂ prs m x
  rw [hx] at h
  cases hr : rlookup (prs.foldl (pairStep ops config pts₁ pts₂) m) x
  · rfl
  · rw [hr] at h; simp at h

/-- Pairs in which either player is absent from the table are skipped: the
pairwise fold equals the fold over only the pairs whose two players are both
present. -/
theorem foldl_pairStep_filter (ops : FloatOps) (config : EloConfig) (pts₁ pts₂ : Int) :
    ∀ (prs : List (String × String)) (m : List PlayerRating),
      prs.foldl (pairStep ops config pts₁ pts₂) m =
        (prs.filter (fun pr => (rlookup m pr.1).isSome && (rlookup m pr.2).isSome)).foldl
          (pairStep ops config pts₁ pts₂) m := by
  intro prs
  induction prs with
  | nil => intro m; rfl
  | cons pr prs ih =>
    intro m
    by_cases hp : ((rlookup m pr.1).isSome && (rlookup m pr.2).isSome) = true
    · rw [@List.filter_cons_of_pos _ (fun pr => (rlookup m pr.1).isSome && (rlookup m pr.2).isSome) pr prs hp,
        List.foldl_cons, List.foldl_cons, ih]
      congr 1
      apply List.filter_congr
      intro q hq
      rw [pairStep_isSome, pairStep_isSome]
    · have hskip : pairStep ops config pts₁ pts₂ m pr = m := by
        apply pairStep_skip
        rcases not_and_or.mp (Bool.and_eq_true_iff.not.mp hp) with h | h
        · left
          cases hl : rlookup m pr.1
          · rfl
          · rw [hl] at h; simp at h
        · right
          cases hl : rlookup m pr.2
          · rfl
          · rw [hl] at h; simp at h
      rw [@List.filter_cons_of_neg _ (fun pr => (rlookup m pr.1).isSome && (rlookup m pr.2).isSome) pr prs hp,
        List.foldl_cons, hskip, ih]

theorem statStep_none_eq (t₁ : List String) (pts₁ pts₂ : Int) (m : List PlayerRating)
    (q : String) (hq : rlookup m q = none) :
    statStep t₁ pts₁ pts₂ m q = m := by
  unfold statStep
  rw [hq]

theorem statStep_some_eq (t₁ : List String) (pts₁ pts₂ : Int) (m : List PlayerRating)
    (q : String) (r : PlayerRating) (hq : rlookup m q = some r) :
    statStep t₁ pts₁ pts₂ m q = rupdate m q (statUpd t₁ pts₁ pts₂ q) := by
  unfold statStep
  rw [hq]

theorem statStep_none (t₁ : List String) (pts₁ pts₂ : Int) (m : List PlayerRating)
    (q x : String) (hx : rlookup m x = none) :
    rlookup (statStep t₁ pts₁ pts₂ m q) x = none := by
  cases hq : rlookup m q with
  | none => rw [statStep_none_eq _ _ _ _ _ hq]; exact hx
  | some r =>
    rw [statStep_some_eq _ _ _ _ _ r hq, rlookup_rupdate_stat]
    by_cases hxq : x = q
    · rw [if_pos hxq, hx]; rfl
    · rw [if_neg hxq]; exact hx

theorem statStep_frame (t₁ : List String) (pts₁ pts₂ : Int) (m : List PlayerRating)
    (q x : String) (hx : x ≠ q) :
    rlookup (statStep t₁ pts₁ pts₂ m q) x = rlookup m x := by
  cases hq : rlookup m q with
  | none => rw [statStep_none_eq _ _ _ _ _ hq]
  | some r =>
    rw [statStep_some_eq _ _ _ _ _ r hq, rlookup_rupdate_stat, if_neg hx]

theorem foldl_statStep_frame (t₁ : List String) (pts₁ pts₂ : Int) :
    ∀ (l : List String) (m : List PlayerRating) (x : String), x ∉ l →
      rlookup (l.foldl (statStep t₁ pts₁ pts₂) m) x = rlookup m x := by
  intro l
  induction l with
  | nil => intro m x _; rfl
  | cons q l ih =>
    intro m x hx
    have hxq : x ≠ q := fun h => hx (by rw [h]; exact List.mem_cons_self _ _)
    rw [List.foldl_cons, ih _ _ (fun h => hx (List.mem_cons_of_mem _ h)),
      statStep_frame _ _ _ _ _ _ hxq]

/-- Each listed player's aggregate stats are updated exactly once by the
stats fold; an absent player's entry stays absent (`Option.map` of `none`). -/
theorem foldl_statStep_self (t₁ : List String) (pts₁ pts₂ : Int) :
    ∀ (l : List String) (m : List PlayerRating) (p : String), l.Nodup → p ∈ l →
      rlookup (l.foldl (statStep t₁ pts₁ pts₂) m) p =
        (rlookup m p).map (statUpd t₁ pts₁ pts₂ p) := by
  intro l
  induction l with
  | nil => intro m p _ hp; cases hp
  | cons q l ih =>
    intro m p hnd hp
    rcases List.mem_cons.mp hp with rfl | hp'
    · have hnotin : p ∉ l := (List.nodup_cons.mp hnd).1
      rw [List.foldl_cons, foldl_statStep_frame _ _ _ _ _ _ hnotin]
      cases hq : rlookup m p with
      | none => rw [statStep_none_eq _ _ _ _ _ hq, hq]; rfl
      | some r =>
        rw [statStep_some_eq _ _ _ _ _ r hq, rlookup_rupdate_stat, if_pos rfl, hq]
    · have hqp : p ≠ q := fun h => (List.nodup_cons.mp hnd).1 (h ▸ hp')
      rw [List.foldl_cons, ih _ _ (List.nodup_cons.mp hnd).2 hp',
        statStep_frame _ _ _ _ _ _ hqp]

theorem foldl_statStep_none (t₁ : List String) (pts₁ pts₂ : Int) :
    ∀ (l : List String) (m : List PlayerRating) (x : String), rlookup m x = none →
      rlookup (l.foldl (statStep t₁ pts₁ pts₂) m) x = none := by
  intro l
  induction l with
  | nil => intro m x hx; exact hx
  | cons q l ih =>
    intro m x hx
    rw [List.foldl_cons]
    exact ih _ _ (statStep_none _ _ _ _ _ _ hx)

/-! ## Claims about the Elo rating engine -/

/-- Claim C4.  For a 2-v-2 set, the pairwise Elo phase is exactly the
sequential fold over the four cross-team pairs (a₁,b₁), (a₁,b₂), (a₂,b₁),
(a₂,b₂) — each pairwise `updatePlayerRatings` result is written back to the
table *before* the next pair is read, so later pairs see earlier updates —
and it mutates only the `elo` field: every player's name, wins, losses,
points and matches-played are unchanged.  Since `pairStep` feeds the current
records to `updatePlayerRatings`, whose K-factor is
`getKFactor playerA.matchesPlayed`, and matches-played is untouched by the
phase, each pairwise K-factor is computed from the pre-match matches-played
count. -/
theorem C4_elo_pairwise_updates (ops : FloatOps) (config : EloConfig)
    (m : List PlayerRating) (a₁ a₂ b₁ b₂ : String) (pts₁ pts₂ : Int) :
    eloPhase ops config m [a₁, a₂] [b₁, b₂] pts₁ pts₂ =
      pairStep ops config pts₁ pts₂
        (pairStep ops config pts₁ pts₂
          (pairStep ops config pts₁ pts₂
            (pairStep ops config pts₁ pts₂ m (a₁, b₁)) (a₁, b₂)) (a₂, b₁)) (a₂, b₂) ∧
    ∀ x, (rlookup (eloPhase ops config m [a₁, a₂] [b₁, b₂] pts₁ pts₂) x).map nonEloData =
      (rlookup m x).map nonEloData :=
  ⟨rfl, fun x => foldl_pairStep_nonElo ops config pts₁ pts₂ _ m x⟩

/-- Claim C7.  The rating table returned by `calculateEloRatings` is a
permutation of exactly those replayed player records with at least 8 matches
played, it is sorted by Elo descending, and every returned record has at
least 8 matches played. -/
theorem C7_rating_table_filter_sorted (ops : FloatOps) (dateKey : String → Int)
    (data : Data) (config : EloConfig) :
    List.Perm (calculateEloRatings ops dateKey data config)
      ((eloTableRaw ops dateKey data config).filter (fun p => 8 ≤ p.matchesPlayed)) ∧
    (calculateEloRatings ops dateKey data config).Sorted (fun a b => b.elo ≤ a.elo) ∧
    ∀ p ∈ calculateEloRatings ops dateKey data config, 8 ≤ p.matchesPlayed := by
  refine ⟨sortByKey_perm _ _, ?_, ?_⟩
  · have h := sortByKey_sorted (fun p : PlayerRating => -p.elo)
      ((eloTableRaw ops dateKey data config).filter (fun p => 8 ≤ p.matchesPlayed))
    exact h.imp (fun hab => neg_le_neg_iff.mp hab)
  · intro p hp
    have hmem : p ∈ (eloTableRaw ops dateKey data config).filter
        (fun p => 8 ≤ p.matchesPlayed) := (sortByKey_perm _ _).mem_iff.mp hp
    simpa using (List.mem_filter.mp hmem).2

/-- Claim C8.  A match player absent from the rating table raises no error
and is skipped only where it appears: the pairwise Elo fold equals the fold
over just the cross pairs whose two players are both present (pairs with the
absent player are dropped, the others proceed in order); the absent player
still has no table entry after the set is processed; and every listed player
present in the table receives the full normal aggregate-stats update. -/
theorem C8_absent_player_skipped (ops : FloatOps) (config : EloConfig)
    (m : List PlayerRating) (t₁ t₂ : List String) (pts₁ pts₂ : Int) (x : String)
    (hx : rlookup m x = none) (hnd : (t₁ ++ t₂).Nodup) :
    eloPhase ops config m t₁ t₂ pts₁ pts₂ =
      ((crossPairs t₁ t₂).filter
        (fun pr => (rlookup m pr.1).isSome && (rlookup m pr.2).isSome)).foldl
        (pairStep ops config pts₁ pts₂) m ∧
    rlookup (statsPhase (eloPhase ops config m t₁ t₂ pts₁ pts₂) t₁ t₂ pts₁ pts₂) x = none ∧
    ∀ p ∈ t₁ ++ t₂,
      rlookup (statsPhase (eloPhase ops config m t₁ t₂ pts₁ pts₂) t₁ t₂ pts₁ pts₂) p =
        (rlookup (eloPhase ops config m t₁ t₂ pts₁ pts₂) p).map (statUpd t₁ pts₁ pts₂ p) := by
  refine ⟨foldl_pairStep_filter ops config pts₁ pts₂ _ m, ?_, ?_⟩
  · have helo : rlookup (eloPhase ops config m t₁ t₂ pts₁ pts₂) x = none :=
      foldl_pairStep_none ops config pts₁ pts₂ _ m x hx
    exact foldl_statStep_none t₁ pts₁ pts₂ (t₁ ++ t₂) _ x helo
  · intro p hp
    exact foldl_statStep_self t₁ pts₁ pts₂ (t₁ ++ t₂) _ p hnd hp

/-- Witness for claim C8 at a concrete input: roster A, B, C; the set lists
the unknown player X on team 1. -/
theorem C8_absent_player_skipped_witness :
    eloPhase ⟨fun _ => 1, fun _ => 1, fun _ => 0⟩ DEFAULT_ELO_CONFIG
        (initRatings [{ name := "A" }, { name := "B" }, { name := "C" }] DEFAULT_ELO_CONFIG)
        ["X", "A"] ["B", "C"] 21 10 =
      ((crossPairs ["X", "A"] ["B", "C"]).filter
        (fun pr =>
          (rlookup (initRatings [{ name := "A" }, { name := "B" }, { name := "C" }]
            DEFAULT_ELO_CONFIG) pr.1).isSome &&
          (rlookup (initRatings [{ name := "A" }, { name := "B" }, { name := "C" }]
            DEFAULT_ELO_CONFIG) pr.2).isSome)).foldl
        (pairStep ⟨fun _ => 1, fun _ => 1, fun _ => 0⟩ DEFAULT_ELO_CONFIG 21 10)
        (initRatings [{ name := "A" }, { name := "B" }, { name := "C" }] DEFAULT_ELO_CONFIG) ∧
    rlookup
      (statsPhase
        (eloPhase ⟨fun _ => 1, fun _ => 1, fun _ => 0⟩ DEFAULT_ELO_CONFIG
          (initRatings [{ name := "A" }, { name := "B" }, { name := "C" }] DEFAULT_ELO_CONFIG)
          ["X", "A"] ["B", "C"] 21 10)
        ["X", "A"] ["B", "C"] 21 10) "X" = none ∧
    ∀ p ∈ ["X", "A"] ++ ["B", "C"],
      rlookup
        (statsPhase
          (eloPhase ⟨fun _ => 1, fun _ => 1, fun _ => 0⟩ DEFAULT_ELO_CONFIG
            (initRatings [{ name := "A" }, { name := "B" }, { name := "C" }] DEFAULT_ELO_CONFIG)
            ["X", "A"] ["B", "C"] 21 10)
          ["X", "A"] ["B", "C"] 21 10) p =
        (rlookup
          (eloPhase ⟨fun _ => 1, fun _ => 1, fun _ => 0⟩ DEFAULT_ELO_CONFIG
            (initRatings [{ name := "A" }, { name := "B" }, { name := "C" }] DEFAULT_ELO_CONFIG)
            ["X", "A"] ["B", "C"] 21 10) p).map (statUpd ["X", "A"] 21 10 p) :=
  C8_absent_player_skipped ⟨fun _ => 1, fun _ => 1, fun _ => 0⟩ DEFAULT_ELO_CONFIG
    (initRatings [{ name := "A" }, { name := "B" }, { name := "C" }] DEFAULT_ELO_CONFIG)
    ["X", "A"] ["B", "C"] 21 10 "X" (by decide) (by decide)
